import Mathlib

/-!
Verification development for the GoEconGo commodity-economy simulator.

The Go source (src/main.go) is embedded shallowly:

* Go float64 values are modelled as exact rationals.
* Go int values are modelled as integers.
* Go maps with zero-value defaults (inventory, belief, requirement maps)
  are modelled as total functions returning the zero default.
* Commodities are identified by natural-number ids; the shared mutable
  averagePrice field is threaded explicitly as a price map or a single
  rational for the commodity being cleared.
* Loops whose termination is not structural carry an explicit fuel
  argument and return an Option, with none marking divergence.
-/

namespace GoEconGo

/-- A belief interval of an agent for one commodity (Go struct priceRange). -/
structure priceRange where
  low : ℚ
  high : ℚ
  deriving DecidableEq, Repr

/-- A quantity of one commodity (Go struct commoditySet). -/
structure commoditySet where
  item : ℕ
  quantity : ℤ
  deriving DecidableEq, Repr

/-- A production recipe (Go struct productionMethod). -/
structure productionMethod where
  inputs : List commoditySet
  catalysts : List commoditySet
  outputs : List commoditySet
  consumption : List ℚ
  deriving DecidableEq, Repr

/-- A collection of production methods plus an idle penalty (Go struct productionSet). -/
structure productionSet where
  methods : List productionMethod
  penalty : ℚ
  deriving DecidableEq, Repr

/-- A trader agent (Go struct traderAgent); the role and id fields play no
algorithmic part and are omitted. -/
structure traderAgent where
  job : productionSet
  inventory : ℕ → ℤ
  priceBelief : ℕ → priceRange
  funds : ℚ
  riskAversion : ℕ

/-- A request to sell (Go struct ask). -/
structure ask where
  id : ℕ
  item : ℕ
  quantity : ℤ
  sellFor : ℚ
  deriving DecidableEq, Repr

/-- A request to buy (Go struct bid). -/
structure bid where
  id : ℕ
  item : ℕ
  quantity : ℤ
  buyFor : ℚ
  deriving DecidableEq, Repr

/-- An ask offer entry (Go struct asks). -/
structure asksEntry where
  offeredAsk : ask
  numberOffered : ℤ
  numberAccepted : ℤ
  deriving DecidableEq, Repr

/-- A bid offer entry (Go struct bids). -/
structure bidsEntry where
  offeredBid : bid
  numberOffered : ℤ
  numberAccepted : ℤ
  deriving DecidableEq, Repr

/-! ## The market-clearing engine (main.go lines 892-968)

The Go matching loop walks the per-commodity ask and bid books with two
indices that both advance by exactly one each iteration; split residuals
are spliced in directly after the current index.  This is captured by a
recursion that consumes the heads of the two remaining lists and pushes
residual entries back on the head of the corresponding remainder. -/

/-- Result of the matching loop for one commodity. -/
structure matchResult where
  asksOut : List asksEntry
  bidsOut : List bidsEntry
  totalTransactions : ℤ
  runningTotal : ℚ
  deriving DecidableEq, Repr

/-- The idealized, value-semantics reading of the inner matching loop of the
clearinghouse (main.go lines 902-961): the remaining quantity of the head ask
is numberOffered - numberAccepted, likewise for the head bid; a trade clears
at the midpoint of the two offer prices, which is written back into both
matched entries; a split produces an independent residual entry.  The Go
books are slices of POINTERS, and in the split paths the program aliases and
zeroes the shared head entry instead of building this residual; that
pointer-faithful semantics is modelled separately by matchLoopRefs below and
is the authority for every property that can reach a split.  This value
version is kept for the price-update property, whose statements depend only
on totalTransactions and runningTotal of rounds that never execute the
split code (empty books, priced-out heads) or on the price-update
conditional itself, where the two models coincide. -/
def matchLoop : List asksEntry → List bidsEntry → ℤ → ℚ → matchResult
  | [], bs, tt, rt => ⟨[], bs, tt, rt⟩
  | a :: as, [], tt, rt => ⟨a :: as, [], tt, rt⟩
  | a :: as, b :: bs, tt, rt =>
    if a.offeredAsk.sellFor > b.offeredBid.buyFor then
      ⟨a :: as, b :: bs, tt, rt⟩
    else if a.numberOffered - a.numberAccepted ≥ b.numberOffered - b.numberAccepted then
      -- the ask absorbs the whole remaining bid
      if a.numberOffered - a.numberAccepted ≠ b.numberOffered - b.numberAccepted then
        -- split: a residual ask (zero accepted, pre-rewrite price) follows
        let r := matchLoop
          ({ a with numberAccepted := 0,
                    numberOffered := a.numberOffered -
                      (a.numberAccepted + (b.numberOffered - b.numberAccepted)) } :: as)
          bs (tt + b.numberOffered)
          (rt + (a.offeredAsk.sellFor + b.offeredBid.buyFor) / 2 * (b.numberOffered : ℚ))
        let clearing := (a.offeredAsk.sellFor + b.offeredBid.buyFor) / 2
        let accA := a.numberAccepted + (b.numberOffered - b.numberAccepted)
        let a1 : asksEntry :=
          { a with numberAccepted := accA, numberOffered := accA,
                   offeredAsk := { a.offeredAsk with sellFor := clearing } }
        let b1 : bidsEntry :=
          { b with numberAccepted := b.numberOffered,
                   offeredBid := { b.offeredBid with buyFor := clearing } }
        ⟨a1 :: r.asksOut, b1 :: r.bidsOut, r.totalTransactions, r.runningTotal⟩
      else
        let r := matchLoop as bs (tt + b.numberOffered)
          (rt + (a.offeredAsk.sellFor + b.offeredBid.buyFor) / 2 * (b.numberOffered : ℚ))
        let clearing := (a.offeredAsk.sellFor + b.offeredBid.buyFor) / 2
        let accA := a.numberAccepted + (b.numberOffered - b.numberAccepted)
        let a1 : asksEntry :=
          { a with numberAccepted := accA, numberOffered := accA,
                   offeredAsk := { a.offeredAsk with sellFor := clearing } }
        let b1 : bidsEntry :=
          { b with numberAccepted := b.numberOffered,
                   offeredBid := { b.offeredBid with buyFor := clearing } }
        ⟨a1 :: r.asksOut, b1 :: r.bidsOut, r.totalTransactions, r.runningTotal⟩
    else
      -- the bid absorbs the whole remaining ask; the bid is always split
      let r := matchLoop as
        ({ b with numberAccepted := 0,
                  numberOffered := b.numberOffered -
                    (b.numberAccepted + (a.numberOffered - a.numberAccepted)) } :: bs)
        (tt + a.numberOffered)
        (rt + (a.offeredAsk.sellFor + b.offeredBid.buyFor) / 2 * (a.numberOffered : ℚ))
      let clearing := (a.offeredAsk.sellFor + b.offeredBid.buyFor) / 2
      let accB := b.numberAccepted + (a.numberOffered - a.numberAccepted)
      let a1 : asksEntry :=
        { a with numberAccepted := a.numberOffered,
                 offeredAsk := { a.offeredAsk with sellFor := clearing } }
      let b1 : bidsEntry :=
        { b with numberAccepted := accB, numberOffered := accB,
                 offeredBid := { b.offeredBid with buyFor := clearing } }
      ⟨a1 :: r.asksOut, b1 :: r.bidsOut, r.totalTransactions, r.runningTotal⟩
  termination_by as bs _ _ => as.length + bs.length
  decreasing_by
  all_goals simp only [List.length_cons]
  all_goals omega

/-- Ascending stable sort of the ask book by price (Go AsksLowToHigh with
sort.Sort, which runs an insertion sort at the book sizes relevant here). -/
def sortAsks (l : List asksEntry) : List asksEntry :=
  List.insertionSort (fun x y => x.offeredAsk.sellFor ≤ y.offeredAsk.sellFor) l

/-- Descending stable sort of the bid book by price (Go BidsHighToLow). -/
def sortBids (l : List bidsEntry) : List bidsEntry :=
  List.insertionSort (fun x y => y.offeredBid.buyFor ≤ x.offeredBid.buyFor) l

/-- Result of a full clearing round for one commodity. -/
structure roundResult where
  asksOut : List asksEntry
  bidsOut : List bidsEntry
  totalTransactions : ℤ
  runningTotal : ℚ
  newPrice : ℚ
  deriving DecidableEq, Repr

/-- One clearing round for one commodity: sort both books, run the matching
loop, and update the average price only when transactions occured
(main.go lines 883-967). -/
def clearRound (askBook : List asksEntry) (bidBook : List bidsEntry)
    (averagePrice : ℚ) : roundResult :=
  let r := matchLoop (sortAsks askBook) (sortBids bidBook) 0 0
  { asksOut := r.asksOut
    bidsOut := r.bidsOut
    totalTransactions := r.totalTransactions
    runningTotal := r.runningTotal
    newPrice :=
      if r.totalTransactions ≠ 0 then r.runningTotal / (r.totalTransactions : ℚ)
      else averagePrice }

/-- Sum of the accepted counts over an ask book. -/
def sumAcceptedAsks (l : List asksEntry) : ℤ :=
  (l.map (fun e => e.numberAccepted)).sum

/-- Sum of the accepted counts over a bid book. -/
def sumAcceptedBids (l : List bidsEntry) : ℤ :=
  (l.map (fun e => e.numberAccepted)).sum

/-! ## The pointer-faithful matching engine

The Go books are slices of pointers ([]*asks and []*bids, main.go lines
828-829), so the split code aliases the head entry: newAsks :=
asksCom[asksIndex] (line 919) copies the pointer, line 920 zeroes the shared
numberAccepted that line 911 just raised, line 921 is then a no-op, lines
923-924 insert the SAME pointer a second time, and line 927 sets
numberOffered = numberAccepted = 0; the bid side (lines 940-947) is
symmetric.  A split therefore leaves one shared entry (numberOffered 0,
numberAccepted 0, price = clearing price) referenced twice.  This is
modelled here with explicit references: a book is a list of ids into a
store, mutation updates the store, and a split pushes the same id again (the
reading in which the duplicating append does not clobber the following
entry, which is what Go does whenever the append reallocates). -/

/-- Result of the pointer-faithful matching loop: the two id lists, the two
stores the ids point into, the transaction totals, and whether any split
code ran. -/
structure matchRefsResult where
  askIds : List ℕ
  bidIds : List ℕ
  askStore : ℕ → asksEntry
  bidStore : ℕ → bidsEntry
  totalTransactions : ℤ
  runningTotal : ℚ
  didSplit : Bool

def matchLoopRefs : List ℕ → List ℕ → (ℕ → asksEntry) → (ℕ → bidsEntry) → ℤ → ℚ → Bool →
    matchRefsResult
  | [], bIds, aSt, bSt, tt, rt, s => ⟨[], bIds, aSt, bSt, tt, rt, s⟩
  | aid :: aRest, [], aSt, bSt, tt, rt, s => ⟨aid :: aRest, [], aSt, bSt, tt, rt, s⟩
  | aid :: aRest, bid0 :: bRest, aSt, bSt, tt, rt, s =>
    if (aSt aid).offeredAsk.sellFor > (bSt bid0).offeredBid.buyFor then
      ⟨aid :: aRest, bid0 :: bRest, aSt, bSt, tt, rt, s⟩
    else if (aSt aid).numberOffered - (aSt aid).numberAccepted
        ≥ (bSt bid0).numberOffered - (bSt bid0).numberAccepted then
      if (aSt aid).numberOffered - (aSt aid).numberAccepted
          ≠ (bSt bid0).numberOffered - (bSt bid0).numberAccepted then
        let r := matchLoopRefs (aid :: aRest) bRest
          (fun i => if i = aid then
            { offeredAsk :=
                { (aSt aid).offeredAsk with
                  sellFor := ((aSt aid).offeredAsk.sellFor + (bSt bid0).offeredBid.buyFor) / 2 }
              numberOffered := 0
              numberAccepted := 0 }
            else aSt i)
          (fun j => if j = bid0 then
            { (bSt bid0) with
              numberAccepted := (bSt bid0).numberOffered
              offeredBid :=
                { (bSt bid0).offeredBid with
                  buyFor := ((aSt aid).offeredAsk.sellFor + (bSt bid0).offeredBid.buyFor) / 2 } }
            else bSt j)
          (tt + (bSt bid0).numberOffered)
          (rt + ((aSt aid).offeredAsk.sellFor + (bSt bid0).offeredBid.buyFor) / 2
            * ((bSt bid0).numberOffered : ℚ))
          true
        ⟨aid :: r.askIds, bid0 :: r.bidIds, r.askStore, r.bidStore,
          r.totalTransactions, r.runningTotal, r.didSplit⟩
      else
        let r := matchLoopRefs aRest bRest
          (fun i => if i = aid then
            { offeredAsk :=
                { (aSt aid).offeredAsk with
                  sellFor := ((aSt aid).offeredAsk.sellFor + (bSt bid0).offeredBid.buyFor) / 2 }
              numberOffered := (aSt aid).numberAccepted
                + ((bSt bid0).numberOffered - (bSt bid0).numberAccepted)
              numberAccepted := (aSt aid).numberAccepted
                + ((bSt bid0).numberOffered - (bSt bid0).numberAccepted) }
            else aSt i)
          (fun j => if j = bid0 then
            { (bSt bid0) with
              numberAccepted := (bSt bid0).numberOffered
              offeredBid :=
                { (bSt bid0).offeredBid with
                  buyFor := ((aSt aid).offeredAsk.sellFor + (bSt bid0).offeredBid.buyFor) / 2 } }
            else bSt j)
          (tt + (bSt bid0).numberOffered)
          (rt + ((aSt aid).offeredAsk.sellFor + (bSt bid0).offeredBid.buyFor) / 2
            * ((bSt bid0).numberOffered : ℚ))
          s
        ⟨aid :: r.askIds, bid0 :: r.bidIds, r.askStore, r.bidStore,
          r.totalTransactions, r.runningTotal, r.didSplit⟩
    else
      let r := matchLoopRefs aRest (bid0 :: bRest)
        (fun i => if i = aid then
          { (aSt aid) with
            numberAccepted := (aSt aid).numberOffered
            offeredAsk :=
              { (aSt aid).offeredAsk with
                sellFor := ((aSt aid).offeredAsk.sellFor + (bSt bid0).offeredBid.buyFor) / 2 } }
          else aSt i)
        (fun j => if j = bid0 then
          { offeredBid :=
              { (bSt bid0).offeredBid with
                buyFor := ((aSt aid).offeredAsk.sellFor + (bSt bid0).offeredBid.buyFor) / 2 }
            numberOffered := 0
            numberAccepted := 0 }
          else bSt j)
        (tt + (aSt aid).numberOffered)
        (rt + ((aSt aid).offeredAsk.sellFor + (bSt bid0).offeredBid.buyFor) / 2
          * ((aSt aid).numberOffered : ℚ))
        true
      ⟨aid :: r.askIds, bid0 :: r.bidIds, r.askStore, r.bidStore,
        r.totalTransactions, r.runningTotal, r.didSplit⟩
  termination_by aIds bIds _ _ _ _ _ => aIds.length + bIds.length
  decreasing_by
  all_goals simp only [List.length_cons]
  all_goals omega

structure roundRefsResult where
  asksOut : List asksEntry
  bidsOut : List bidsEntry
  totalTransactions : ℤ
  runningTotal : ℚ
  newPrice : ℚ
  didSplit : Bool
  deriving DecidableEq, Repr

def defaultAsksEntry : asksEntry := ⟨⟨0, 0, 0, 0⟩, 0, 0⟩
def defaultBidsEntry : bidsEntry := ⟨⟨0, 0, 0, 0⟩, 0, 0⟩

def clearRoundRefs (askBook : List asksEntry) (bidBook : List bidsEntry)
    (averagePrice : ℚ) : roundRefsResult :=
  let aSt := fun i => askBook.getD i defaultAsksEntry
  let bSt := fun j => bidBook.getD j defaultBidsEntry
  let sortedA := List.insertionSort
    (fun i j => (aSt i).offeredAsk.sellFor ≤ (aSt j).offeredAsk.sellFor)
    (List.range askBook.length)
  let sortedB := List.insertionSort
    (fun i j => (bSt j).offeredBid.buyFor ≤ (bSt i).offeredBid.buyFor)
    (List.range bidBook.length)
  let r := matchLoopRefs sortedA sortedB aSt bSt 0 0 false
  { asksOut := r.askIds.map r.askStore
    bidsOut := r.bidIds.map r.bidStore
    totalTransactions := r.totalTransactions
    runningTotal := r.runningTotal
    newPrice :=
      if r.totalTransactions ≠ 0 then r.runningTotal / (r.totalTransactions : ℚ)
      else averagePrice
    didSplit := r.didSplit }

/-! ## Valuation functions (main.go lines 222-279) -/

/-- Public market value of a production method computed from the shared
average prices (main.go getMarketValue). -/
def getMarketValue (prices : ℕ → ℚ) (m : productionMethod) : ℚ :=
  let v1 := m.outputs.foldl (fun v s => v + (s.quantity : ℚ) * prices s.item) 0
  let v2 := m.inputs.foldl (fun v s => v - (s.quantity : ℚ) * prices s.item) v1
  (m.catalysts.zip m.consumption).foldl
    (fun v sc => v - (sc.1.quantity : ℚ) * sc.2 * prices sc.1.item) v2

/-- Midpoint of the belief interval of an agent for one commodity. -/
def beliefMid (agent : traderAgent) (c : ℕ) : ℚ :=
  ((agent.priceBelief c).high + (agent.priceBelief c).low) / 2

/-- Value of a production method under the private belief of the agent
(the loop body of main.go getAverageProductionValue). -/
def beliefValue (agent : traderAgent) (m : productionMethod) : ℚ :=
  let v1 := m.outputs.foldl (fun v s => v + (s.quantity : ℚ) * beliefMid agent s.item) 0
  let v2 := m.inputs.foldl (fun v s => v - (s.quantity : ℚ) * beliefMid agent s.item) v1
  (m.catalysts.zip m.consumption).foldl
    (fun v sc => v - (sc.1.quantity : ℚ) * sc.2 * beliefMid agent sc.1.item) v2

/-- Belief-based value of the production method at a given index; an index
outside the recipe returns the sentinel -1 (main.go getAverageProductionValue). -/
def getAverageProductionValue (agent : traderAgent) (productionNumber : ℕ) : ℚ :=
  if productionNumber ≥ agent.job.methods.length then -1
  else beliefValue agent (agent.job.methods.getD productionNumber ⟨[], [], [], []⟩)

/-- Agent used to exhibit the out-of-bounds behaviour of
getAverageProductionValue: its single method has belief value -1. -/
def sentinelAgent : traderAgent :=
  { job := { methods := [⟨[⟨0, 1⟩], [], [], []⟩], penalty := 2 }
    inventory := fun _ => 0
    priceBelief := fun _ => ⟨1, 1⟩
    funds := 50
    riskAversion := 1 }

/-! ## Belief adaptation (main.go agentUpdate, lines 468-602)

Each result entry adjusts the belief interval of its commodity through one
of four branches (ask accepted / ask rejected / bid accepted / bid
rejected, each split into a big-step and a little-step case), then runs the
corrective INVERT loop while low >= high, then clamps a negative low to
1/2 and writes the interval back.  The INVERT loop has no termination
guarantee, so it carries fuel and the whole update returns an Option. -/

/-- The large adjustment fraction of agentUpdate (Go bigPercent = 0.2). -/
def bigPercent : ℚ := 1 / 5

/-- The small adjustment fraction of agentUpdate (Go littlePercent = 0.01). -/
def littlePercent : ℚ := 1 / 100

/-- One pass of the corrective loop body: lower low by the step fraction of
its distance to the public average. -/
def invertStep (itemAvg p low : ℚ) : ℚ := low - |low - itemAvg| * p

/-- The corrective INVERT loop of agentUpdate: while low >= high keep
lowering low; fuel-indexed, none marks divergence. -/
def invertLoop (itemAvg p high : ℚ) : ℕ → ℚ → Option ℚ
  | 0, low => if low ≥ high then none else some low
  | n + 1, low =>
    if low ≥ high then invertLoop itemAvg p high n (invertStep itemAvg p low)
    else some low

/-- The corrective loop never reaches a state with low < high, whatever
fuel it is given. -/
def invertLoopDiverges (itemAvg p high low : ℚ) : Prop :=
  ∀ n, invertLoop itemAvg p high n low = none

/-- The common tail of every agentUpdate branch: clamp a negative low to the
arbitrary floor 1/2 and store the new interval for the commodity, together
with the updated funds and inventory (main.go lines 528-535 and 594-600). -/
def finishBelief (agent : traderAgent) (funds : ℚ) (inventory : ℕ → ℤ) (item : ℕ)
    (high low : ℚ) : traderAgent :=
  { agent with
    funds := funds
    inventory := inventory
    priceBelief := fun c =>
      if c = item then ⟨if low < 0 then 1 / 2 else low, high⟩
      else agent.priceBelief c }

/-- Processing of one ask result entry by agentUpdate (main.go lines 473-536). -/
def processAsk (fuel : ℕ) (prices : ℕ → ℚ) (agent : traderAgent)
    (askSet : asksEntry) : Option traderAgent :=
  let item := askSet.offeredAsk.item
  let agentHigh := (agent.priceBelief item).high
  let agentLow := (agent.priceBelief item).low
  let agentAvg := (agentHigh + agentLow) / 2
  let itemAvg := prices item
  if askSet.numberAccepted > 0 then
    -- sold: take the inventory out, add the cash, push the interval up
    let funds := agent.funds +
      (askSet.offeredAsk.quantity : ℚ) * (askSet.numberAccepted : ℚ) *
        askSet.offeredAsk.sellFor
    let inv := fun c =>
      if c = item then agent.inventory c - askSet.offeredAsk.quantity * askSet.numberAccepted
      else agent.inventory c
    if agentAvg ≤ itemAvg then
      (invertLoop itemAvg bigPercent (agentHigh + |agentHigh - itemAvg| * bigPercent) fuel
          (agentLow + |agentLow - itemAvg| * bigPercent)).map
        (finishBelief agent funds inv item (agentHigh + |agentHigh - itemAvg| * bigPercent))
    else
      (invertLoop itemAvg littlePercent (agentHigh + |agentHigh - itemAvg| * littlePercent) fuel
          (agentLow + |agentLow - itemAvg| * littlePercent)).map
        (finishBelief agent funds inv item (agentHigh + |agentHigh - itemAvg| * littlePercent))
  else
    -- nothing sold: push the interval down, funds and inventory untouched
    if agentAvg ≥ itemAvg then
      (invertLoop itemAvg bigPercent (agentHigh - |agentHigh - itemAvg| * bigPercent) fuel
          (agentLow - |agentLow - itemAvg| * bigPercent)).map
        (finishBelief agent agent.funds agent.inventory item
          (agentHigh - |agentHigh - itemAvg| * bigPercent))
    else
      (invertLoop itemAvg littlePercent (agentHigh - |agentHigh - itemAvg| * littlePercent) fuel
          (agentLow - |agentLow - itemAvg| * littlePercent)).map
        (finishBelief agent agent.funds agent.inventory item
          (agentHigh - |agentHigh - itemAvg| * littlePercent))

/-- Processing of one bid result entry by agentUpdate (main.go lines 540-601). -/
def processBid (fuel : ℕ) (prices : ℕ → ℚ) (agent : traderAgent)
    (bidSet : bidsEntry) : Option traderAgent :=
  let item := bidSet.offeredBid.item
  let agentHigh := (agent.priceBelief item).high
  let agentLow := (agent.priceBelief item).low
  let agentAvg := (agentHigh + agentLow) / 2
  let itemAvg := prices item
  if bidSet.numberAccepted > 0 then
    -- bought: add the inventory, remove the cash, push the interval down
    let funds := agent.funds -
      (bidSet.offeredBid.quantity : ℚ) * (bidSet.numberAccepted : ℚ) *
        bidSet.offeredBid.buyFor
    let inv := fun c =>
      if c = item then agent.inventory c + bidSet.offeredBid.quantity * bidSet.numberAccepted
      else agent.inventory c
    if agentAvg ≥ itemAvg then
      (invertLoop itemAvg bigPercent (agentHigh - |agentHigh - itemAvg| * bigPercent) fuel
          (agentLow - |agentLow - itemAvg| * bigPercent)).map
        (finishBelief agent funds inv item (agentHigh - |agentHigh - itemAvg| * bigPercent))
    else
      (invertLoop itemAvg littlePercent (agentHigh - |agentHigh - itemAvg| * littlePercent) fuel
          (agentLow - |agentLow - itemAvg| * littlePercent)).map
        (finishBelief agent funds inv item (agentHigh - |agentHigh - itemAvg| * littlePercent))
  else
    -- nothing bought: push the interval up, funds and inventory untouched
    if agentAvg ≤ itemAvg then
      (invertLoop itemAvg bigPercent (agentHigh + |agentHigh - itemAvg| * bigPercent) fuel
          (agentLow + |agentLow - itemAvg| * bigPercent)).map
        (finishBelief agent agent.funds agent.inventory item
          (agentHigh + |agentHigh - itemAvg| * bigPercent))
    else
      (invertLoop itemAvg littlePercent (agentHigh + |agentHigh - itemAvg| * littlePercent) fuel
          (agentLow + |agentLow - itemAvg| * littlePercent)).map
        (finishBelief agent agent.funds agent.inventory item
          (agentHigh + |agentHigh - itemAvg| * littlePercent))

/-- The ask loop of agentUpdate over a result slice. -/
def processAsks (fuel : ℕ) (prices : ℕ → ℚ) : traderAgent → List asksEntry →
    Option traderAgent
  | agent, [] => some agent
  | agent, e :: es =>
    (processAsk fuel prices agent e).bind (fun a => processAsks fuel prices a es)

/-- The bid loop of agentUpdate over a result slice. -/
def processBids (fuel : ℕ) (prices : ℕ → ℚ) : traderAgent → List bidsEntry →
    Option traderAgent
  | agent, [] => some agent
  | agent, e :: es =>
    (processBid fuel prices agent e).bind (fun a => processBids fuel prices a es)

/-- agentUpdate (main.go lines 468-602): fold the belief, funds and
inventory updates over the ask results, then over the bid results. -/
def agentUpdate (fuel : ℕ) (prices : ℕ → ℚ) (agent : traderAgent)
    (askSlice : List asksEntry) (bidSlice : List bidsEntry) : Option traderAgent :=
  (processAsks fuel prices agent askSlice).bind
    (fun a => processBids fuel prices a bidSlice)

/-- The belief-interval shape that agentUpdate actually guarantees for every
commodity it touches: a nonnegative low, and a low strictly under the high
whenever the high exceeds the 1/2 clamp constant. -/
def goodRange (pr : priceRange) : Prop :=
  0 ≤ pr.low ∧ (1 / 2 < pr.high → pr.low < pr.high)

/-- Price map of the counterexample to C2: commodity 0 trades at 1/10. -/
def c2Prices : ℕ → ℚ := fun _ => 1 / 10

/-- Agent of the counterexample to C2, holding belief (1/100, 1/5). -/
def c2Agent : traderAgent := ⟨⟨[], 2⟩, fun _ => 0, fun _ => ⟨1 / 100, 1 / 5⟩, 50, 1⟩

/-- A fully rejected ask entry on commodity 0 for the counterexample to C2. -/
def c2AskEntry : asksEntry := ⟨⟨0, 0, 1, 21 / 200⟩, 1, 0⟩

/-- The state agentUpdate computes on the counterexample input of C2: the
lowered interval is (-1/125, 9/50), whose negative low the clamp then
raises to 1/2, past the high of 9/50. -/
def c2Out : traderAgent :=
  finishBelief c2Agent c2Agent.funds c2Agent.inventory 0 (9 / 50) (-1 / 125)

/-- Agent of the witness for the amended C2, holding belief (1, 2). -/
def c2wAgent : traderAgent := ⟨⟨[], 2⟩, fun _ => 0, fun _ => ⟨1, 2⟩, 50, 1⟩

/-- Price map of the witness for the amended C2. -/
def c2wPrices : ℕ → ℚ := fun _ => 1

/-- A fully rejected ask entry for the witness of the amended C2. -/
def c2wEntry : asksEntry := ⟨⟨0, 0, 1, 3 / 2⟩, 1, 0⟩

/-- The state agentUpdate computes on the witness input of the amended C2. -/
def c2wOut : traderAgent :=
  finishBelief c2wAgent c2wAgent.funds c2wAgent.inventory 0 (9 / 5) 1

/-- Agent of the witness for C10, holding belief (2, 4). -/
def c10Agent : traderAgent := ⟨⟨[], 2⟩, fun _ => 5, fun _ => ⟨2, 4⟩, 30, 1⟩

/-- Price map of the witness for C10. -/
def c10Prices : ℕ → ℚ := fun _ => 1

/-- A fully rejected ask entry for the witness of C10. -/
def c10AskEntry : asksEntry := ⟨⟨0, 0, 1, 3⟩, 2, 0⟩

/-- A fully rejected bid entry for the witness of C10. -/
def c10BidEntry : bidsEntry := ⟨⟨0, 0, 1, 3⟩, 2, 0⟩

/-- The state processAsk computes on the ask input of the C10 witness. -/
def c10AskOut : traderAgent :=
  finishBelief c10Agent c10Agent.funds c10Agent.inventory 0 (17 / 5) (9 / 5)

/-- The state processBid computes on the bid input of the C10 witness. -/
def c10BidOut : traderAgent :=
  finishBelief c10Agent c10Agent.funds c10Agent.inventory 0 (403 / 100) (201 / 100)

/-! ## Production (main.go performProduction, lines 288-341) -/

/-- Whether every input and every catalyst of a method is present in the
inventory in at least the required quantity (the accepted flag computed by
the scan loop of performProduction). -/
def methodExecutable (inv : ℕ → ℤ) (m : productionMethod) : Bool :=
  m.inputs.all (fun s => decide (s.quantity ≤ inv s.item))
    && m.catalysts.all (fun s => decide (s.quantity ≤ inv s.item))

/-- The sort.Sort(ByMarketValue(...)) call of performProduction: Less
compares getMarketValue with <, so the list is ordered ASCENDING, cheapest
method first.  Go sort.Sort runs a stable insertion sort below 12 elements,
the regime of every production set this program builds, so the stable
insertion sort models it exactly there. -/
def sortByMarketValue (prices : ℕ → ℚ) (ms : List productionMethod) :
    List productionMethod :=
  List.insertionSort (fun a b => getMarketValue prices a ≤ getMarketValue prices b) ms

/-- Unconditional removal of the inputs of a method from the inventory. -/
def consumeInputs (m : productionMethod) (inv : ℕ → ℤ) : ℕ → ℤ :=
  m.inputs.foldl (fun acc s => fun c => if c = s.item then acc c - s.quantity else acc c) inv

/-- Per-unit probabilistic consumption of one catalyst: one uniform draw per
unit taken from the stream at increasing indices; a unit is removed when
the consumption probability exceeds the draw, as in main.go line 330. -/
def consumeCatalystUnits (rng : ℕ → ℚ) (p : ℚ) (item : ℕ) :
    ℕ → (ℕ → ℤ) → ℕ → ((ℕ → ℤ) × ℕ)
  | 0, inv, idx => (inv, idx)
  | n + 1, inv, idx =>
    consumeCatalystUnits rng p item n
      (if p > rng idx then fun c => if c = item then inv c - 1 else inv c else inv)
      (idx + 1)

/-- Probabilistic catalyst consumption across all catalysts of a method,
aligned with the consumption probabilities. -/
def consumeCatalysts (rng : ℕ → ℚ) (m : productionMethod) (inv : ℕ → ℤ) :
    (ℕ → ℤ) × ℕ :=
  (m.catalysts.zip m.consumption).foldl
    (fun s cp => consumeCatalystUnits rng cp.2 cp.1.item cp.1.quantity.toNat s.1 s.2)
    (inv, 0)

/-- Unconditional addition of the outputs of a method to the inventory. -/
def addOutputs (m : productionMethod) (inv : ℕ → ℤ) : ℕ → ℤ :=
  m.outputs.foldl (fun acc s => fun c => if c = s.item then acc c + s.quantity else acc c) inv

/-- performProduction (main.go lines 288-341): sort the methods of the job
in place by public market value, execute the first executable method in
that order (inputs out, catalysts probabilistically out, outputs in), or
deduct the idle penalty when none is executable.  The draw stream rng
stands for rand.Float64. -/
def performProduction (rng : ℕ → ℚ) (prices : ℕ → ℚ) (agent : traderAgent) : traderAgent :=
  let sorted := sortByMarketValue prices agent.job.methods
  match sorted.find? (fun m => methodExecutable agent.inventory m) with
  | none =>
    { agent with job := { agent.job with methods := sorted },
                 funds := agent.funds - agent.job.penalty }
  | some m =>
    { agent with job := { agent.job with methods := sorted },
                 inventory :=
                   addOutputs m (consumeCatalysts rng m (consumeInputs m agent.inventory)).1 }

/-- Price map of the C4 input: commodity 1 trades at 5, commodity 2 at 10. -/
def c4Prices : ℕ → ℚ := fun c => if c = 1 then 5 else if c = 2 then 10 else 3

/-- Method producing one unit of commodity 1, market value 5. -/
def mLow : productionMethod := ⟨[], [], [⟨1, 1⟩], []⟩

/-- Method producing one unit of commodity 2, market value 10. -/
def mHigh : productionMethod := ⟨[], [], [⟨2, 1⟩], []⟩

/-- Agent of the C4 input, with both methods executable (no requirements). -/
def c4Agent : traderAgent := ⟨⟨[mLow, mHigh], 2⟩, fun _ => 0, fun _ => ⟨3, 3⟩, 50, 1⟩

/-! ## Bid generation (main.go generateBids, lines 418-461)

Go requirement maps carry int values with zero-value lookups, so they are
modelled as total functions defaulting to 0; cQMapConcat is pointwise
addition of such maps. -/

/-- The inputs-plus-catalysts requirement map of one method
(main.go gatherRequirements, lines 365-376). -/
def gatherRequirements (pm : productionMethod) : ℕ → ℤ :=
  pm.catalysts.foldl (fun acc s => fun c => if c = s.item then acc c + s.quantity else acc c)
    (pm.inputs.foldl (fun acc s => fun c => if c = s.item then acc c + s.quantity else acc c)
      (fun _ => 0))

/-- sortedPVKeys over getAllAverageProductionValues: the methods of the job
ordered by descending belief value.  Go sorts the keys of a value map taken
in randomized map-iteration order with an unstable sort; every use below is
insensitive to the relative order of equal-valued methods, so the stable
descending sort models it. -/
def sortedPVKeys (agent : traderAgent) : List productionMethod :=
  List.insertionSort (fun a b => beliefValue agent b ≤ beliefValue agent a) agent.job.methods

/-- The requirement accumulation of generateBids before the held inventory
is subtracted (main.go lines 427-436): riskAversion times, cyclesToCover
= 2 times, the requirements of EVERY method of sortedPVKeys are merged
additively into invReqs — the inner loop ranges over the whole ranked list,
not over its top element for the current index. -/
def bidRequirements (agent : traderAgent) : ℕ → ℤ :=
  (List.range agent.riskAversion).foldl
    (fun acc _ =>
      (List.range 2).foldl
        (fun acc2 _ =>
          (sortedPVKeys agent).foldl (fun m pv => fun c => gatherRequirements pv c + m c) acc2)
        acc)
    (fun _ => 0)

/-- Modelled from the spec: section 4.1 step 3 sums the per-unit
requirements of only the TOP riskAversion ranked methods, each counted for
cyclesToCover = 2 production cycles, merged additively; the in-code comment
above the loop (main.go lines 425-426) states the same intent.  This
definition follows those words, for comparison with bidRequirements. -/
def specBidRequirements (agent : traderAgent) : ℕ → ℤ := fun c =>
  2 * (((sortedPVKeys agent).take agent.riskAversion).map
    (fun m => gatherRequirements m c)).sum

/-- Method of the C5 input needing one unit of commodity 0 and producing one
unit of commodity 2. -/
def c5A : productionMethod := ⟨[⟨0, 1⟩], [], [⟨2, 1⟩], []⟩

/-- Method of the C5 input needing three units of commodity 1 and producing
nothing. -/
def c5B : productionMethod := ⟨[⟨1, 3⟩], [], [], []⟩

/-- Agent of the C5 input: riskAversion 1, belief value 9 for the first
method and -3 for the second. -/
def c5Agent : traderAgent := ⟨⟨[c5A, c5B], 2⟩, fun _ => 0,
  fun c => if c = 2 then ⟨10, 10⟩ else ⟨1, 1⟩, 50, 1⟩

/-! ## The agent loop (main.go agentRun, lines 172-211) -/

/-- One cycle of the agent loop with the given round results: perform
production, generate the offers (generateAsks and generateBids read but
never write the agent state), apply the returned results through
agentUpdate, then test solvency; the Boolean is the alive flag after the
funds check at main.go lines 203-205. -/
def agentCycle (fuel : ℕ) (rng : ℕ → ℚ) (prices : ℕ → ℚ) (agent : traderAgent)
    (askRes : List asksEntry) (bidRes : List bidsEntry) : Option (traderAgent × Bool) :=
  (agentUpdate fuel prices (performProduction rng prices agent) askRes bidRes).map
    (fun a2 => (a2, !decide (a2.funds ≤ 0)))

/-- The agent loop run for a bounded number of cycles in which every offer
comes back unaccepted (empty result slices); once the alive flag falls the
state no longer changes, as the Go loop has exited. -/
def agentRunFor (fuel : ℕ) (rng : ℕ → ℚ) (prices : ℕ → ℚ) :
    ℕ → traderAgent → Option (traderAgent × Bool)
  | 0, agent => some (agent, true)
  | n + 1, agent =>
    (agentRunFor fuel rng prices n agent).bind
      (fun s => if s.2 then agentCycle fuel rng prices s.1 [] [] else some s)

/-- Agent of Scenario D: funds 10, idle penalty 2, a single production
method requiring one unit of commodity 0 with an empty inventory, so no
method is ever executable. -/
def c8Agent : traderAgent :=
  ⟨⟨[⟨[⟨0, 1⟩], [], [], []⟩], 2⟩, fun _ => 0, fun _ => ⟨1, 2⟩, 10, 1⟩

/-- Price map of Scenario D. -/
def c8Prices : ℕ → ℚ := fun _ => 3

/-- When every bid price sits strictly below every ask price, the loop stops
at its first comparison and returns its inputs untouched. -/
theorem matchLoop_no_cross (as : List asksEntry) (bs : List bidsEntry) (tt : ℤ) (rt : ℚ)
    (h : ∀ a ∈ as, ∀ b ∈ bs, b.offeredBid.buyFor < a.offeredAsk.sellFor) :
    matchLoop as bs tt rt = ⟨as, bs, tt, rt⟩ := by
  match as, bs with
  | [], bs => rw [matchLoop]
  | a :: as, [] => rw [matchLoop]
  | a :: as, b :: bs =>
      rw [matchLoop, if_pos]
      exact h a (by simp) b (by simp)

/-- C6: the commodity price after a clearing round is runningTotal divided by
totalTransactions when the round produced at least one transaction, and is
left exactly unchanged when it produced zero transactions, in particular
when either book is empty or when every ask price exceeds every bid price. -/
theorem clearRound_price_update (askBook : List asksEntry) (bidBook : List bidsEntry)
    (price : ℚ) :
    ((clearRound askBook bidBook price).totalTransactions = 0 →
      (clearRound askBook bidBook price).newPrice = price)
    ∧ (0 < (clearRound askBook bidBook price).totalTransactions →
      (clearRound askBook bidBook price).newPrice
        = (clearRound askBook bidBook price).runningTotal
          / ((clearRound askBook bidBook price).totalTransactions : ℚ))
    ∧ (askBook = [] →
      (clearRound askBook bidBook price).totalTransactions = 0
        ∧ (clearRound askBook bidBook price).newPrice = price)
    ∧ (bidBook = [] →
      (clearRound askBook bidBook price).totalTransactions = 0
        ∧ (clearRound askBook bidBook price).newPrice = price)
    ∧ ((∀ a ∈ askBook, ∀ b ∈ bidBook, b.offeredBid.buyFor < a.offeredAsk.sellFor) →
      (clearRound askBook bidBook price).totalTransactions = 0
        ∧ (clearRound askBook bidBook price).newPrice = price) := by
  refine ⟨?_, ?_, ?_, ?_, ?_⟩
  · intro h
    simp only [clearRound] at h ⊢
    simp [h]
  · intro h
    simp only [clearRound] at h ⊢
    rw [if_pos (by omega)]
  · rintro rfl
    have hs : sortAsks ([] : List asksEntry) = [] := rfl
    simp only [clearRound, hs]
    rw [matchLoop]
    norm_num
  · rintro rfl
    have hs : sortBids ([] : List bidsEntry) = [] := rfl
    simp only [clearRound, hs]
    match h : sortAsks askBook with
    | [] => rw [matchLoop]; norm_num
    | a :: as => rw [matchLoop]; norm_num
  · intro h
    have h2 : ∀ a ∈ sortAsks askBook, ∀ b ∈ sortBids bidBook,
        b.offeredBid.buyFor < a.offeredAsk.sellFor := by
      intro a ha b hb
      exact h a ((List.perm_insertionSort _ askBook).mem_iff.mp ha)
        b ((List.perm_insertionSort _ bidBook).mem_iff.mp hb)
    simp only [clearRound, matchLoop_no_cross _ _ _ _ h2]
    norm_num

/-- Witness for C6, Scenario B: one ask at 15 against one bid at 10 produces
no transactions and leaves the price unchanged. -/
theorem clearRound_price_update_witness :
    (∀ a ∈ [(⟨⟨0, 0, 1, 15⟩, 1, 0⟩ : asksEntry)], ∀ b ∈ [(⟨⟨0, 0, 1, 10⟩, 1, 0⟩ : bidsEntry)],
      b.offeredBid.buyFor < a.offeredAsk.sellFor)
    ∧ (clearRound [⟨⟨0, 0, 1, 15⟩, 1, 0⟩] [⟨⟨0, 0, 1, 10⟩, 1, 0⟩] 7).totalTransactions = 0
    ∧ (clearRound [⟨⟨0, 0, 1, 15⟩, 1, 0⟩] [⟨⟨0, 0, 1, 10⟩, 1, 0⟩] 7).newPrice = 7 :=
  ⟨by decide,
    (clearRound_price_update [⟨⟨0, 0, 1, 15⟩, 1, 0⟩] [⟨⟨0, 0, 1, 10⟩, 1, 0⟩] 7).2.2.2.2
      (by decide)⟩

/-- Counterexample to C9: an out-of-bounds production number makes
getAverageProductionValue silently return the plain value -1, which is
indistinguishable from the genuine in-bounds value -1 of the same agent;
no error or panic is surfaced. -/
theorem getAverageProductionValue_out_of_bounds_counterexample :
    getAverageProductionValue sentinelAgent 1 = -1
      ∧ getAverageProductionValue sentinelAgent 0 = -1 := by
  constructor
  · rfl
  · simp only [getAverageProductionValue, beliefValue, beliefMid, sentinelAgent]
    norm_num

/-- C9 amended: for every production number at or beyond the length of the
method list, getAverageProductionValue returns the sentinel -1 instead of
surfacing an error. -/
theorem getAverageProductionValue_out_of_bounds (agent : traderAgent) (n : ℕ)
    (h : agent.job.methods.length ≤ n) :
    getAverageProductionValue agent n = -1 := by
  rw [getAverageProductionValue, if_pos h]

/-- Witness for the amended C9 at a concrete agent and index. -/
theorem getAverageProductionValue_out_of_bounds_witness :
    sentinelAgent.job.methods.length ≤ 5
      ∧ getAverageProductionValue sentinelAgent 5 = -1 :=
  ⟨by decide, getAverageProductionValue_out_of_bounds sentinelAgent 5 (by decide)⟩

/-- Whenever the corrective loop returns, the returned low lies strictly
under the high. -/
theorem invertLoop_lt_high (itemAvg p high : ℚ) :
    ∀ (n : ℕ) (low l : ℚ), invertLoop itemAvg p high n low = some l → l < high := by
  intro n
  induction n with
  | zero =>
      intro low l h
      by_cases hc : low ≥ high
      · simp [invertLoop, hc] at h
      · rw [invertLoop, if_neg hc] at h
        cases h
        exact lt_of_not_le hc
  | succ n ih =>
      intro low l h
      by_cases hc : low ≥ high
      · rw [invertLoop, if_pos hc] at h
        exact ih _ _ h
      · rw [invertLoop, if_neg hc] at h
        cases h
        exact lt_of_not_le hc

/-- If some iterate of the step map drops under the high, the corrective
loop with that much fuel returns. -/
theorem invertLoop_of_iterate (itemAvg p high : ℚ) :
    ∀ (n : ℕ) (low : ℚ), (invertStep itemAvg p)^[n] low < high →
      ∃ l, invertLoop itemAvg p high n low = some l := by
  intro n
  induction n with
  | zero =>
      intro low h
      rw [Function.iterate_zero_apply] at h
      exact ⟨low, by rw [invertLoop, if_neg (not_le.mpr h)]⟩
  | succ n ih =>
      intro low h
      by_cases hc : low ≥ high
      · rw [invertLoop, if_pos hc]
        exact ih (invertStep itemAvg p low) (by rwa [Function.iterate_succ_apply] at h)
      · exact ⟨low, by rw [invertLoop, if_neg hc]⟩

/-- Closed form of the corrective step below the public average: the iterates
run away from the average geometrically. -/
theorem invertStep_iterate_below (itemAvg p : ℚ) (hp : 0 < p) (low : ℚ)
    (h : low < itemAvg) :
    ∀ n : ℕ, (invertStep itemAvg p)^[n] low = itemAvg - (1 + p) ^ n * (itemAvg - low) := by
  intro n
  induction n with
  | zero => simp
  | succ n ih =>
      have hd : 0 < itemAvg - low := by linarith
      have hpow : 0 < (1 + p) ^ n := pow_pos (by linarith) n
      have hneg : itemAvg - (1 + p) ^ n * (itemAvg - low) - itemAvg < 0 := by
        have := mul_pos hpow hd
        linarith
      rw [Function.iterate_succ_apply', ih, invertStep, abs_of_neg hneg]
      ring

/-- Closed form of the corrective step above the public average: the iterates
approach the average geometrically from above. -/
theorem invertStep_iterate_above (itemAvg p : ℚ) (hp0 : 0 < p) (hp1 : p < 1) (low : ℚ)
    (h : itemAvg < low) :
    ∀ n : ℕ, (invertStep itemAvg p)^[n] low = itemAvg + (1 - p) ^ n * (low - itemAvg) := by
  intro n
  induction n with
  | zero => simp
  | succ n ih =>
      have hd : 0 < low - itemAvg := by linarith
      have hpow : 0 < (1 - p) ^ n := pow_pos (by linarith) n
      have hpos : 0 < itemAvg + (1 - p) ^ n * (low - itemAvg) - itemAvg := by
        have := mul_pos hpow hd
        linarith
      rw [Function.iterate_succ_apply', ih, invertStep, abs_of_pos hpos]
      ring

/-- Claim C7 (amended): the corrective loop reaches a state with low < high
in finitely many iterations whenever low starts below the public average or
the high sits above the public average; with the step fraction in (0, 1)
these are exactly the recoverable configurations. -/
theorem invertLoop_terminates (itemAvg p high low : ℚ) (hp0 : 0 < p) (hp1 : p < 1)
    (h : low < itemAvg ∨ itemAvg < high) :
    ∃ n l, invertLoop itemAvg p high n low = some l := by
  by_cases hlh : low < high
  · exact ⟨0, low, by rw [invertLoop, if_neg (not_le.mpr hlh)]⟩
  · push_neg at hlh
    rcases h with hbelow | habove
    · have hd : 0 < itemAvg - low := by linarith
      obtain ⟨n, hn⟩ := pow_unbounded_of_one_lt
        ((itemAvg - high) / (itemAvg - low)) (by linarith : (1 : ℚ) < 1 + p)
      have hlt : (invertStep itemAvg p)^[n] low < high := by
        rw [invertStep_iterate_below itemAvg p hp0 low hbelow n]
        have := (div_lt_iff hd).mp hn
        linarith
      obtain ⟨l, hl⟩ := invertLoop_of_iterate itemAvg p high n low hlt
      exact ⟨n, l, hl⟩
    · have hal : itemAvg < low := lt_of_lt_of_le habove hlh
      have hd : 0 < low - itemAvg := by linarith
      have hhi : 0 < high - itemAvg := by linarith
      obtain ⟨n, hn⟩ := exists_pow_lt_of_lt_one
        (div_pos hhi hd) (by linarith : 1 - p < (1 : ℚ))
      have hlt : (invertStep itemAvg p)^[n] low < high := by
        rw [invertStep_iterate_above itemAvg p hp0 hp1 low hal n]
        have := (lt_div_iff hd).mp hn
        linarith
      obtain ⟨l, hl⟩ := invertLoop_of_iterate itemAvg p high n low hlt
      exact ⟨n, l, hl⟩

/-- Counterexample to C7: from the degenerate state low = high = averagePrice
= 1 the corrective loop subtracts zero forever, so no finite number of
iterations ever reaches low < high. -/
theorem invertLoop_diverges_cex : (1 : ℚ) ≥ 1 ∧ invertLoopDiverges 1 bigPercent 1 1 := by
  refine ⟨le_rfl, fun n => ?_⟩
  induction n with
  | zero => rw [invertLoop, if_pos le_rfl]
  | succ n ih =>
      rw [invertLoop, if_pos le_rfl]
      have hs : invertStep 1 bigPercent 1 = 1 := by
        norm_num [invertStep]
      rw [hs]
      exact ih

/-- Witness for the amended C7 at a concrete recoverable state. -/
theorem invertLoop_terminates_witness :
    0 < (1 : ℚ) / 5 ∧ (1 : ℚ) / 5 < 1 ∧ ((2 : ℚ) < 3 ∨ (3 : ℚ) < 1)
      ∧ ∃ n l, invertLoop 3 (1 / 5) 1 n 2 = some l :=
  ⟨by norm_num, by norm_num, Or.inl (by norm_num),
    invertLoop_terminates 3 (1 / 5) 1 2 (by norm_num) (by norm_num) (Or.inl (by norm_num))⟩

/-- Everything one belief step guarantees for one ask entry: the written
interval satisfies goodRange, every other commodity keeps its belief, and a
rejected entry leaves funds and inventory untouched. -/
theorem processAsk_spec (fuel : ℕ) (prices : ℕ → ℚ) (agent : traderAgent)
    (e : asksEntry) (a' : traderAgent) (h : processAsk fuel prices agent e = some a') :
    goodRange (a'.priceBelief e.offeredAsk.item)
    ∧ (∀ c, c ≠ e.offeredAsk.item → a'.priceBelief c = agent.priceBelief c)
    ∧ (e.numberAccepted = 0 → a'.funds = agent.funds ∧ a'.inventory = agent.inventory) := by
  simp only [processAsk] at h
  split at h <;> split at h <;>
  · rcases Option.map_eq_some'.mp h with ⟨l, hl, rfl⟩
    have hlh := invertLoop_lt_high _ _ _ _ _ _ hl
    refine ⟨⟨?_, ?_⟩, ?_, ?_⟩
    · simp only [finishBelief]
      by_cases h0 : l < 0 <;> simp [h0] <;> linarith
    · simp only [finishBelief]
      by_cases h0 : l < 0 <;> simp [h0] <;> intro <;> linarith
    · intro c hc
      simp [finishBelief, hc]
    · intro hacc
      first
      | (exfalso; omega)
      | exact ⟨rfl, rfl⟩

/-- Everything one belief step guarantees for one bid entry, mirroring the
ask version. -/
theorem processBid_spec (fuel : ℕ) (prices : ℕ → ℚ) (agent : traderAgent)
    (e : bidsEntry) (a' : traderAgent) (h : processBid fuel prices agent e = some a') :
    goodRange (a'.priceBelief e.offeredBid.item)
    ∧ (∀ c, c ≠ e.offeredBid.item → a'.priceBelief c = agent.priceBelief c)
    ∧ (e.numberAccepted = 0 → a'.funds = agent.funds ∧ a'.inventory = agent.inventory) := by
  simp only [processBid] at h
  split at h <;> split at h <;>
  · rcases Option.map_eq_some'.mp h with ⟨l, hl, rfl⟩
    have hlh := invertLoop_lt_high _ _ _ _ _ _ hl
    refine ⟨⟨?_, ?_⟩, ?_, ?_⟩
    · simp only [finishBelief]
      by_cases h0 : l < 0 <;> simp [h0] <;> linarith
    · simp only [finishBelief]
      by_cases h0 : l < 0 <;> simp [h0] <;> intro <;> linarith
    · intro c hc
      simp [finishBelief, hc]
    · intro hacc
      first
      | (exfalso; omega)
      | exact ⟨rfl, rfl⟩

/-- The ask loop of agentUpdate preserves goodRange everywhere it already
holds and establishes it at the commodity of every processed entry. -/
theorem processAsks_spec (fuel : ℕ) (prices : ℕ → ℚ) :
    ∀ (es : List asksEntry) (agent a' : traderAgent),
      processAsks fuel prices agent es = some a' →
      (∀ c, goodRange (agent.priceBelief c) → goodRange (a'.priceBelief c))
      ∧ (∀ e ∈ es, goodRange (a'.priceBelief e.offeredAsk.item)) := by
  intro es
  induction es with
  | nil =>
      intro agent a' h
      rw [processAsks] at h
      cases h
      exact ⟨fun c hc => hc, by simp⟩
  | cons e es ih =>
      intro agent a' h
      rw [processAsks] at h
      rcases Option.bind_eq_some.mp h with ⟨a1, h1, h2⟩
      have hs := processAsk_spec fuel prices agent e a1 h1
      have hr := ih a1 a' h2
      refine ⟨?_, ?_⟩
      · intro c hc
        by_cases hci : c = e.offeredAsk.item
        · subst hci
          exact hr.1 _ hs.1
        · exact hr.1 c (by rw [hs.2.1 c hci]; exact hc)
      · intro f hf
        rcases List.mem_cons.mp hf with rfl | hf'
        · exact hr.1 _ hs.1
        · exact hr.2 f hf'

/-- The bid loop of agentUpdate preserves goodRange everywhere it already
holds and establishes it at the commodity of every processed entry. -/
theorem processBids_spec (fuel : ℕ) (prices : ℕ → ℚ) :
    ∀ (es : List bidsEntry) (agent a' : traderAgent),
      processBids fuel prices agent es = some a' →
      (∀ c, goodRange (agent.priceBelief c) → goodRange (a'.priceBelief c))
      ∧ (∀ e ∈ es, goodRange (a'.priceBelief e.offeredBid.item)) := by
  intro es
  induction es with
  | nil =>
      intro agent a' h
      rw [processBids] at h
      cases h
      exact ⟨fun c hc => hc, by simp⟩
  | cons e es ih =>
      intro agent a' h
      rw [processBids] at h
      rcases Option.bind_eq_some.mp h with ⟨a1, h1, h2⟩
      have hs := processBid_spec fuel prices agent e a1 h1
      have hr := ih a1 a' h2
      refine ⟨?_, ?_⟩
      · intro c hc
        by_cases hci : c = e.offeredBid.item
        · subst hci
          exact hr.1 _ hs.1
        · exact hr.1 c (by rw [hs.2.1 c hci]; exact hc)
      · intro f hf
        rcases List.mem_cons.mp hf with rfl | hf'
        · exact hr.1 _ hs.1
        · exact hr.2 f hf'

/-- Claim C2 (amended): whenever agentUpdate returns, the belief interval of
the commodity of every processed entry has low >= 0, and low < high holds
whenever high exceeds the clamp constant 1/2; the clamp that lifts a
negative low to 1/2 can overshoot a high at or below 1/2, so strict
low < high in full generality fails (see the counterexample). -/
theorem agentUpdate_goodRange (fuel : ℕ) (prices : ℕ → ℚ) (agent a' : traderAgent)
    (askSlice : List asksEntry) (bidSlice : List bidsEntry)
    (h : agentUpdate fuel prices agent askSlice bidSlice = some a') :
    (∀ e ∈ askSlice, goodRange (a'.priceBelief e.offeredAsk.item))
    ∧ (∀ e ∈ bidSlice, goodRange (a'.priceBelief e.offeredBid.item)) := by
  rw [agentUpdate] at h
  rcases Option.bind_eq_some.mp h with ⟨a1, h1, h2⟩
  have hA := processAsks_spec fuel prices askSlice agent a1 h1
  have hB := processBids_spec fuel prices bidSlice a1 a' h2
  exact ⟨fun e he => hB.1 _ (hA.2 e he), hB.2⟩

/-- Counterexample to C2: on the belief (1/100, 1/5) with public average
1/10, a rejected ask lowers the interval to (-1/125, 9/50); the clamp then
sets low to 1/2, which is not below the high 9/50, so agentUpdate returns
with low >= high. -/
theorem agentUpdate_low_lt_high_cex :
    agentUpdate 1 c2Prices c2Agent [c2AskEntry] [] = some c2Out
    ∧ ¬ ((c2Out.priceBelief 0).low < (c2Out.priceBelief 0).high) := by
  constructor
  · have h1 : processAsk 1 c2Prices c2Agent c2AskEntry = some c2Out := by
      rw [processAsk]
      norm_num [c2Agent, c2Prices, c2AskEntry, bigPercent, littlePercent, invertLoop,
        invertStep, c2Out, abs_of_pos, abs_of_nonneg]
    simp [agentUpdate, processAsks, processBids, h1]
  · norm_num [c2Out, finishBelief, c2Agent]

/-- Witness for the amended C2 at a concrete rejected ask. -/
theorem agentUpdate_goodRange_witness :
    agentUpdate 1 c2wPrices c2wAgent [c2wEntry] [] = some c2wOut
    ∧ goodRange (c2wOut.priceBelief 0) := by
  have h : agentUpdate 1 c2wPrices c2wAgent [c2wEntry] [] = some c2wOut := by
    have h1 : processAsk 1 c2wPrices c2wAgent c2wEntry = some c2wOut := by
      rw [processAsk]
      norm_num [c2wAgent, c2wPrices, c2wEntry, bigPercent, littlePercent, invertLoop,
        invertStep, c2wOut, abs_of_pos, abs_of_nonneg]
    simp [agentUpdate, processAsks, processBids, h1]
  exact ⟨h, (agentUpdate_goodRange 1 c2wPrices c2wAgent c2wOut [c2wEntry] [] h).1
    c2wEntry (List.mem_singleton.mpr rfl)⟩

/-- Claim C10: a result entry whose numberAccepted is 0 leaves the funds and
the whole inventory of the agent unchanged and modifies no belief entry
other than the one of its own commodity. -/
theorem rejected_entry_frame :
    (∀ (fuel : ℕ) (prices : ℕ → ℚ) (agent a' : traderAgent) (e : asksEntry),
      e.numberAccepted = 0 → processAsk fuel prices agent e = some a' →
      a'.funds = agent.funds ∧ a'.inventory = agent.inventory
        ∧ ∀ c, c ≠ e.offeredAsk.item → a'.priceBelief c = agent.priceBelief c)
    ∧ (∀ (fuel : ℕ) (prices : ℕ → ℚ) (agent a' : traderAgent) (e : bidsEntry),
      e.numberAccepted = 0 → processBid fuel prices agent e = some a' →
      a'.funds = agent.funds ∧ a'.inventory = agent.inventory
        ∧ ∀ c, c ≠ e.offeredBid.item → a'.priceBelief c = agent.priceBelief c) := by
  constructor
  · intro fuel prices agent a' e h0 h
    have hs := processAsk_spec fuel prices agent e a' h
    exact ⟨(hs.2.2 h0).1, (hs.2.2 h0).2, hs.2.1⟩
  · intro fuel prices agent a' e h0 h
    have hs := processBid_spec fuel prices agent e a' h
    exact ⟨(hs.2.2 h0).1, (hs.2.2 h0).2, hs.2.1⟩

/-- Witness for C10 at one concrete rejected ask and one concrete rejected
bid. -/
theorem rejected_entry_frame_witness :
    c10AskEntry.numberAccepted = 0
    ∧ processAsk 1 c10Prices c10Agent c10AskEntry = some c10AskOut
    ∧ c10AskOut.funds = c10Agent.funds ∧ c10AskOut.inventory = c10Agent.inventory
    ∧ c10AskOut.priceBelief 1 = c10Agent.priceBelief 1
    ∧ c10BidEntry.numberAccepted = 0
    ∧ processBid 1 c10Prices c10Agent c10BidEntry = some c10BidOut
    ∧ c10BidOut.funds = c10Agent.funds ∧ c10BidOut.inventory = c10Agent.inventory
    ∧ c10BidOut.priceBelief 1 = c10Agent.priceBelief 1 := by
  have hA : processAsk 1 c10Prices c10Agent c10AskEntry = some c10AskOut := by
    rw [processAsk]
    norm_num [c10Agent, c10Prices, c10AskEntry, bigPercent, littlePercent, invertLoop,
      invertStep, c10AskOut, abs_of_pos, abs_of_nonneg]
  have hB : processBid 1 c10Prices c10Agent c10BidEntry = some c10BidOut := by
    rw [processBid]
    norm_num [c10Agent, c10Prices, c10BidEntry, bigPercent, littlePercent, invertLoop,
      invertStep, c10BidOut, abs_of_pos, abs_of_nonneg]
  have r1 := rejected_entry_frame.1 1 c10Prices c10Agent c10AskOut c10AskEntry rfl hA
  have r2 := rejected_entry_frame.2 1 c10Prices c10Agent c10BidOut c10BidEntry rfl hB
  exact ⟨rfl, hA, r1.1, r1.2.1, r1.2.2 1 (by decide), rfl, hB, r2.1, r2.2.1,
    r2.2.2 1 (by decide)⟩

/-- Claim C4, evaluated at the failing input: with two methods of market
values 5 and 10 and both executable, performProduction executes the method
of value 5 — the comparator of ByMarketValue orders ascending, so the scan
picks the LOWEST-scored executable method, against the claim and against
the doc comment of performProduction itself, which promises the most
valuable executable activity. -/
theorem performProduction_rank_cex :
    getMarketValue c4Prices mLow < getMarketValue c4Prices mHigh
    ∧ methodExecutable c4Agent.inventory mLow = true
    ∧ methodExecutable c4Agent.inventory mHigh = true
    ∧ (performProduction (fun _ => 0) c4Prices c4Agent).inventory 1 = 1
    ∧ (performProduction (fun _ => 0) c4Prices c4Agent).inventory 2 = 0 := by
  refine ⟨?_, ?_, ?_, ?_, ?_⟩
  · norm_num [getMarketValue, c4Prices, mLow, mHigh]
  · norm_num [methodExecutable, c4Agent, mLow]
  · norm_num [methodExecutable, c4Agent, mHigh]
  · norm_num [performProduction, sortByMarketValue, List.insertionSort, List.orderedInsert,
      getMarketValue, c4Prices, mLow, mHigh, c4Agent, methodExecutable, List.find?,
      consumeInputs, consumeCatalysts, addOutputs]
  · norm_num [performProduction, sortByMarketValue, List.insertionSort, List.orderedInsert,
      getMarketValue, c4Prices, mLow, mHigh, c4Agent, methodExecutable, List.find?,
      consumeInputs, consumeCatalysts, addOutputs]

/-- Claim C5, evaluated at the failing input: with riskAversion 1 the
required-quantity map generateBids accumulates contains the requirements of
EVERY method twice (here 6 units of commodity 1 from the bottom-ranked
method), where the top-riskAversion reading of the spec and of the in-code
comment yields none of commodity 1; the top-method requirement of commodity
0 agrees at 2 units. -/
theorem bidRequirements_all_methods_cex :
    beliefValue c5Agent c5B < beliefValue c5Agent c5A
    ∧ bidRequirements c5Agent 0 = 2 ∧ specBidRequirements c5Agent 0 = 2
    ∧ bidRequirements c5Agent 1 = 6 ∧ specBidRequirements c5Agent 1 = 0 := by
  refine ⟨?_, ?_, ?_, ?_, ?_⟩
  · norm_num [beliefValue, beliefMid, c5Agent, c5A, c5B]
  all_goals
    norm_num [bidRequirements, specBidRequirements, sortedPVKeys, List.insertionSort,
      List.orderedInsert, beliefValue, beliefMid, gatherRequirements, c5Agent, c5A, c5B,
      List.range_succ]

/-- Claim C8, Scenario D: an agent at funds 10 with idle penalty 2 and no
executable method, whose offers are never accepted, holds funds 2 and is
alive after four cycles, reaches funds 0 and death at the end of the fifth
cycle, and its loop runs no further cycle afterwards. -/
theorem agentRunFor_scenarioD :
    (agentRunFor 1 (fun _ => 0) c8Prices 4 c8Agent).map (fun s => (s.1.funds, s.2))
        = some (2, true)
    ∧ (agentRunFor 1 (fun _ => 0) c8Prices 5 c8Agent).map (fun s => (s.1.funds, s.2))
        = some (0, false)
    ∧ (agentRunFor 1 (fun _ => 0) c8Prices 6 c8Agent).map (fun s => (s.1.funds, s.2))
        = some (0, false) := by
  refine ⟨?_, ?_, ?_⟩ <;>
  · norm_num [agentRunFor, agentCycle, agentUpdate, processAsks, processBids,
      performProduction, sortByMarketValue, List.insertionSort, List.orderedInsert,
      methodExecutable, List.find?, c8Agent, c8Prices]


/-- Rewriting a pointwise-updated map over a list that misses the updated
point changes nothing. -/
theorem map_update_not_mem {β : Type} (f : ℕ → β) (a : ℕ) (b : β) (l : List ℕ)
    (h : a ∉ l) :
    l.map (fun x => if x = a then b else f x) = l.map f := by
  apply List.map_congr_left
  intro x hx
  have hxa : ¬ x = a := by
    intro he
    subst he
    exact h hx
  rw [if_neg hxa]

/-- Once any split has run, the split flag of the matching loop stays set. -/
theorem matchLoopRefs_didSplit_mono :
    ∀ (aIds bIds : List ℕ) (aSt : ℕ → asksEntry) (bSt : ℕ → bidsEntry) (tt : ℤ) (rt : ℚ)
      (s : Bool), s = true → (matchLoopRefs aIds bIds aSt bSt tt rt s).didSplit = true := by
  intro aIds bIds aSt bSt tt rt s
  induction aIds, bIds, aSt, bSt, tt, rt, s using matchLoopRefs.induct with
  | case1 bIds aSt bSt tt rt s => intro h; simp [matchLoopRefs, h]
  | case2 aid aRest aSt bSt tt rt s => intro h; simp [matchLoopRefs, h]
  | case3 aid aRest bid0 bRest aSt bSt tt rt s h1 => intro h; simp [matchLoopRefs, h1, h]
  | case4 aid aRest bid0 bRest aSt bSt tt rt s h1 h2 h3 ih =>
      intro h
      rw [matchLoopRefs, if_neg h1, if_pos h2, if_pos h3]
      exact ih rfl
  | case5 aid aRest bid0 bRest aSt bSt tt rt s h1 h2 h3 ih =>
      intro h
      rw [matchLoopRefs, if_neg h1, if_pos h2, if_neg h3]
      exact ih h
  | case6 aid aRest bid0 bRest aSt bSt tt rt s h1 h2 ih =>
      intro h
      rw [matchLoopRefs, if_neg h1, if_neg h2]
      exact ih rfl

/-- The matching loop mutates no entry outside the ids of its two books. -/
theorem matchLoopRefs_frame :
    ∀ (aIds bIds : List ℕ) (aSt : ℕ → asksEntry) (bSt : ℕ → bidsEntry) (tt : ℤ) (rt : ℚ)
      (s : Bool),
      (∀ i, i ∉ aIds → (matchLoopRefs aIds bIds aSt bSt tt rt s).askStore i = aSt i)
      ∧ (∀ j, j ∉ bIds → (matchLoopRefs aIds bIds aSt bSt tt rt s).bidStore j = bSt j) := by
  intro aIds bIds aSt bSt tt rt s
  induction aIds, bIds, aSt, bSt, tt, rt, s using matchLoopRefs.induct with
  | case1 bIds aSt bSt tt rt s => simp [matchLoopRefs]
  | case2 aid aRest aSt bSt tt rt s => simp [matchLoopRefs]
  | case3 aid aRest bid0 bRest aSt bSt tt rt s h1 => simp [matchLoopRefs, h1]
  | case4 aid aRest bid0 bRest aSt bSt tt rt s h1 h2 h3 ih =>
      rw [matchLoopRefs, if_neg h1, if_pos h2, if_pos h3]
      dsimp only
      constructor
      · intro i hi
        have h4 := ih.1 i hi
        dsimp only at h4
        simp only [List.mem_cons, not_or] at hi
        rw [dif_neg hi.1] at h4
        exact h4
      · intro j hj
        simp only [List.mem_cons, not_or] at hj
        have h4 := ih.2 j hj.2
        dsimp only at h4
        rw [dif_neg hj.1] at h4
        exact h4
  | case5 aid aRest bid0 bRest aSt bSt tt rt s h1 h2 h3 ih =>
      rw [matchLoopRefs, if_neg h1, if_pos h2, if_neg h3]
      dsimp only
      constructor
      · intro i hi
        simp only [List.mem_cons, not_or] at hi
        have h4 := ih.1 i hi.2
        dsimp only at h4
        rw [dif_neg hi.1] at h4
        exact h4
      · intro j hj
        simp only [List.mem_cons, not_or] at hj
        have h4 := ih.2 j hj.2
        dsimp only at h4
        rw [dif_neg hj.1] at h4
        exact h4
  | case6 aid aRest bid0 bRest aSt bSt tt rt s h1 h2 ih =>
      rw [matchLoopRefs, if_neg h1, if_neg h2]
      dsimp only
      constructor
      · intro i hi
        simp only [List.mem_cons, not_or] at hi
        have h4 := ih.1 i hi.2
        dsimp only at h4
        rw [dif_neg hi.1] at h4
        exact h4
      · intro j hj
        have h4 := ih.2 j hj
        dsimp only at h4
        simp only [List.mem_cons, not_or] at hj
        rw [dif_neg hj.1] at h4
        exact h4

/-- Conservation of the accepted sums for split-free runs of the
pointer-faithful matching loop: every exact-match iteration grants both
sides the same accepted quantity, and no aliased zeroing occurs. -/
theorem matchLoopRefs_conservation_aux :
    ∀ (n : ℕ) (aIds bIds : List ℕ) (aSt : ℕ → asksEntry) (bSt : ℕ → bidsEntry)
      (tt : ℤ) (rt : ℚ) (s : Bool),
      aIds.length + bIds.length ≤ n → aIds.Nodup → bIds.Nodup →
      (matchLoopRefs aIds bIds aSt bSt tt rt s).didSplit = false →
      sumAcceptedAsks ((matchLoopRefs aIds bIds aSt bSt tt rt s).askIds.map
          (matchLoopRefs aIds bIds aSt bSt tt rt s).askStore)
        - sumAcceptedAsks (aIds.map aSt)
      = sumAcceptedBids ((matchLoopRefs aIds bIds aSt bSt tt rt s).bidIds.map
          (matchLoopRefs aIds bIds aSt bSt tt rt s).bidStore)
        - sumAcceptedBids (bIds.map bSt) := by
  intro n
  induction n with
  | zero =>
      intro aIds bIds aSt bSt tt rt s hlen hA hB hsplit
      cases aIds with
      | nil => simp [matchLoopRefs, sumAcceptedAsks, sumAcceptedBids]
      | cons aid aRest => simp at hlen
  | succ n ihn =>
      intro aIds bIds aSt bSt tt rt s hlen hA hB hsplit
      cases aIds with
      | nil => simp [matchLoopRefs, sumAcceptedAsks, sumAcceptedBids]
      | cons aid aRest =>
        cases bIds with
        | nil => simp [matchLoopRefs, sumAcceptedAsks, sumAcceptedBids]
        | cons bid0 bRest =>
          by_cases h1 : (aSt aid).offeredAsk.sellFor > (bSt bid0).offeredBid.buyFor
          · rw [matchLoopRefs, if_pos h1]
            simp [sumAcceptedAsks, sumAcceptedBids]
          · by_cases h2 : (aSt aid).numberOffered - (aSt aid).numberAccepted
                ≥ (bSt bid0).numberOffered - (bSt bid0).numberAccepted
            · by_cases h3 : (aSt aid).numberOffered - (aSt aid).numberAccepted
                  ≠ (bSt bid0).numberOffered - (bSt bid0).numberAccepted
              · exfalso
                rw [matchLoopRefs, if_neg h1, if_pos h2, if_pos h3] at hsplit
                dsimp only at hsplit
                exact Bool.noConfusion
                  ((matchLoopRefs_didSplit_mono _ _ _ _ _ _ _ rfl).symm.trans hsplit)
              · have haid : aid ∉ aRest := (List.nodup_cons.mp hA).1
                have hbid : bid0 ∉ bRest := (List.nodup_cons.mp hB).1
                rw [matchLoopRefs, if_neg h1, if_pos h2, if_neg h3] at hsplit ⊢
                dsimp only at hsplit ⊢
                have ihr := ihn aRest bRest _ _ _ _ s
                  (by simp only [List.length_cons] at hlen; omega)
                  (List.nodup_cons.mp hA).2 (List.nodup_cons.mp hB).2 hsplit
                simp only [sumAcceptedAsks, sumAcceptedBids, List.map_cons,
                  List.sum_cons] at ihr ⊢
                rw [map_update_not_mem _ _ _ _ haid, map_update_not_mem _ _ _ _ hbid] at ihr
                rw [(matchLoopRefs_frame aRest bRest _ _ _ _ _).1 aid haid,
                  (matchLoopRefs_frame aRest bRest _ _ _ _ _).2 bid0 hbid]
                simp only [eq_self_iff_true, if_true]
                omega
            · exfalso
              rw [matchLoopRefs, if_neg h1, if_neg h2] at hsplit
              dsimp only at hsplit
              exact Bool.noConfusion
                ((matchLoopRefs_didSplit_mono _ _ _ _ _ _ _ rfl).symm.trans hsplit)

/-- A book whose entries all carry accepted count 0 contributes 0 to the
accepted sum through any id selection. -/
theorem sumAcceptedAsks_zero_book (askBook : List asksEntry)
    (hA : ∀ e ∈ askBook, e.numberAccepted = 0) (ids : List ℕ) :
    sumAcceptedAsks (ids.map (fun i => askBook.getD i defaultAsksEntry)) = 0 := by
  apply List.sum_eq_zero
  intro x hx
  rcases List.mem_map.mp hx with ⟨e, he, rfl⟩
  rcases List.mem_map.mp he with ⟨i, hi, rfl⟩
  by_cases hlt : i < askBook.length
  · rw [List.getD_eq_getElem _ _ hlt]
    exact hA _ (List.getElem_mem _)
  · rw [List.getD_eq_default _ _ (le_of_not_lt hlt)]
    rfl

/-- A book whose entries all carry accepted count 0 contributes 0 to the
accepted sum through any id selection (bid side). -/
theorem sumAcceptedBids_zero_book (bidBook : List bidsEntry)
    (hB : ∀ e ∈ bidBook, e.numberAccepted = 0) (ids : List ℕ) :
    sumAcceptedBids (ids.map (fun j => bidBook.getD j defaultBidsEntry)) = 0 := by
  apply List.sum_eq_zero
  intro x hx
  rcases List.mem_map.mp hx with ⟨e, he, rfl⟩
  rcases List.mem_map.mp he with ⟨j, hj, rfl⟩
  by_cases hlt : j < bidBook.length
  · rw [List.getD_eq_getElem _ _ hlt]
    exact hB _ (List.getElem_mem _)
  · rw [List.getD_eq_default _ _ (le_of_not_lt hlt)]
    rfl

/-- Claim C1 (amended): for a clearing round on one commodity whose ask and
bid entries all start with numberAccepted = 0, IF the matching pass runs no
quantity split, the sum of numberAccepted over the resulting ask entries
equals the sum over the resulting bid entries; when a split runs, the
pointer-aliased zeroing of the shared head entry (main.go lines 919-927 and
940-947) destroys the accepted count of the split side and conservation
fails (see the counterexample). -/
theorem clearRoundRefs_conservation_nosplit (askBook : List asksEntry)
    (bidBook : List bidsEntry) (price : ℚ)
    (hA : ∀ e ∈ askBook, e.numberAccepted = 0)
    (hB : ∀ e ∈ bidBook, e.numberAccepted = 0)
    (hs : (clearRoundRefs askBook bidBook price).didSplit = false) :
    sumAcceptedAsks (clearRoundRefs askBook bidBook price).asksOut
      = sumAcceptedBids (clearRoundRefs askBook bidBook price).bidsOut := by
  simp only [clearRoundRefs] at hs ⊢
  have key := matchLoopRefs_conservation_aux (askBook.length + bidBook.length)
    _ _ _ _ 0 0 false
    (by simp [(List.perm_insertionSort _ _).length_eq])
    ((List.perm_insertionSort _ _).nodup_iff.mpr (List.nodup_range _))
    ((List.perm_insertionSort _ _).nodup_iff.mpr (List.nodup_range _))
    hs
  rw [sumAcceptedAsks_zero_book askBook hA, sumAcceptedBids_zero_book bidBook hB] at key
  omega

/-- Counterexample to C1: at a two-ask, one-bid book with every accepted
count zero the pass runs the bid-side split; newBids aliases the head bid
and the zeroing at main.go lines 941 and 947 erases its accepted count,
leaving ask-accepted sum 2 against bid-accepted sum 0. -/
theorem clearRoundRefs_conservation_cex :
    (∀ e ∈ [(⟨⟨0, 0, 1, 4⟩, 2, 0⟩ : asksEntry), ⟨⟨0, 0, 1, 6⟩, 3, 0⟩], e.numberAccepted = 0)
    ∧ (∀ e ∈ [(⟨⟨0, 0, 1, 5⟩, 4, 0⟩ : bidsEntry)], e.numberAccepted = 0)
    ∧ sumAcceptedAsks (clearRoundRefs [⟨⟨0, 0, 1, 4⟩, 2, 0⟩, ⟨⟨0, 0, 1, 6⟩, 3, 0⟩]
        [⟨⟨0, 0, 1, 5⟩, 4, 0⟩] 3).asksOut = 2
    ∧ sumAcceptedBids (clearRoundRefs [⟨⟨0, 0, 1, 4⟩, 2, 0⟩, ⟨⟨0, 0, 1, 6⟩, 3, 0⟩]
        [⟨⟨0, 0, 1, 5⟩, 4, 0⟩] 3).bidsOut = 0 := by
  have h1 : (clearRoundRefs [⟨⟨0, 0, 1, 4⟩, 2, 0⟩, ⟨⟨0, 0, 1, 6⟩, 3, 0⟩]
      [⟨⟨0, 0, 1, 5⟩, 4, 0⟩] 3).asksOut = [⟨⟨0, 0, 1, 9 / 2⟩, 2, 2⟩, ⟨⟨0, 0, 1, 6⟩, 3, 0⟩] := by
    simp only [clearRoundRefs, List.length_cons, List.length_nil, List.range_succ,
      List.range_zero, List.nil_append, List.insertionSort, List.orderedInsert, List.getD,
      defaultAsksEntry, defaultBidsEntry]
    norm_num
    rw [matchLoopRefs]
    norm_num
    rw [matchLoopRefs]
    norm_num
  have h2 : (clearRoundRefs [⟨⟨0, 0, 1, 4⟩, 2, 0⟩, ⟨⟨0, 0, 1, 6⟩, 3, 0⟩]
      [⟨⟨0, 0, 1, 5⟩, 4, 0⟩] 3).bidsOut
      = [⟨⟨0, 0, 1, 9 / 2⟩, 0, 0⟩, ⟨⟨0, 0, 1, 9 / 2⟩, 0, 0⟩] := by
    simp only [clearRoundRefs, List.length_cons, List.length_nil, List.range_succ,
      List.range_zero, List.nil_append, List.insertionSort, List.orderedInsert, List.getD,
      defaultAsksEntry, defaultBidsEntry]
    norm_num
    rw [matchLoopRefs]
    norm_num
    rw [matchLoopRefs]
    norm_num
  refine ⟨by decide, by decide, ?_, ?_⟩
  · rw [h1]
    decide
  · rw [h2]
    decide

/-- Witness for the amended C1 at a concrete split-free round: one ask and
one bid of equal quantity 3 match exactly, no split runs, and both accepted
sums are 3. -/
theorem clearRoundRefs_conservation_nosplit_witness :
    (∀ e ∈ [(⟨⟨0, 0, 1, 4⟩, 3, 0⟩ : asksEntry)], e.numberAccepted = 0)
    ∧ (∀ e ∈ [(⟨⟨0, 0, 1, 6⟩, 3, 0⟩ : bidsEntry)], e.numberAccepted = 0)
    ∧ (clearRoundRefs [⟨⟨0, 0, 1, 4⟩, 3, 0⟩] [⟨⟨0, 0, 1, 6⟩, 3, 0⟩] 3).didSplit = false
    ∧ sumAcceptedAsks (clearRoundRefs [⟨⟨0, 0, 1, 4⟩, 3, 0⟩] [⟨⟨0, 0, 1, 6⟩, 3, 0⟩] 3).asksOut
        = sumAcceptedBids (clearRoundRefs [⟨⟨0, 0, 1, 4⟩, 3, 0⟩]
            [⟨⟨0, 0, 1, 6⟩, 3, 0⟩] 3).bidsOut := by
  have hs : (clearRoundRefs [⟨⟨0, 0, 1, 4⟩, 3, 0⟩] [⟨⟨0, 0, 1, 6⟩, 3, 0⟩] 3).didSplit
      = false := by
    simp only [clearRoundRefs, List.length_cons, List.length_nil, List.range_succ,
      List.range_zero, List.nil_append, List.insertionSort, List.orderedInsert, List.getD,
      defaultAsksEntry, defaultBidsEntry]
    rw [matchLoopRefs]
    norm_num
    rw [matchLoopRefs]
  exact ⟨by decide, by decide, hs,
    clearRoundRefs_conservation_nosplit _ _ 3 (by decide) (by decide) hs⟩

/-- Claim C3 (amended): at Scenario A the matching pass clears 3 units at
price 11 (totalTransactions 3, runningTotal 33) and sets averagePrice to 11,
but the split leaves the ask book as TWO references to the one shared entry
with numberOffered 0, numberAccepted 0 and sellFor 11 — the matched and
residual quantities are destroyed by the aliased zeroing — while the bid
ends fully accepted at the clearing price. -/
theorem clearRoundRefs_scenarioA :
    clearRoundRefs [⟨⟨0, 0, 1, 10⟩, 5, 0⟩] [⟨⟨0, 0, 1, 12⟩, 3, 0⟩] 3
      = ⟨[⟨⟨0, 0, 1, 11⟩, 0, 0⟩, ⟨⟨0, 0, 1, 11⟩, 0, 0⟩],
         [⟨⟨0, 0, 1, 11⟩, 3, 3⟩], 3, 33, 11, true⟩ := by
  simp only [clearRoundRefs, List.length_cons, List.length_nil, List.range_succ,
      List.range_zero, List.nil_append, List.insertionSort, List.orderedInsert, List.getD,
      defaultAsksEntry, defaultBidsEntry]
  rw [matchLoopRefs]
  norm_num
  rw [matchLoopRefs]
  norm_num

/-- Counterexample to C3: the ask book Scenario A actually produces is not
the matched (3,3) entry followed by a residual (2,0) that the claim
asserts. -/
theorem clearRoundRefs_scenarioA_cex :
    (clearRoundRefs [⟨⟨0, 0, 1, 10⟩, 5, 0⟩] [⟨⟨0, 0, 1, 12⟩, 3, 0⟩] 3).asksOut
      ≠ [⟨⟨0, 0, 1, 11⟩, 3, 3⟩, ⟨⟨0, 0, 1, 10⟩, 2, 0⟩] := by
  have h : (clearRoundRefs [⟨⟨0, 0, 1, 10⟩, 5, 0⟩] [⟨⟨0, 0, 1, 12⟩, 3, 0⟩] 3).asksOut
      = [⟨⟨0, 0, 1, 11⟩, 0, 0⟩, ⟨⟨0, 0, 1, 11⟩, 0, 0⟩] := by
    simp only [clearRoundRefs, List.length_cons, List.length_nil, List.range_succ,
      List.range_zero, List.nil_append, List.insertionSort, List.orderedInsert, List.getD,
      defaultAsksEntry, defaultBidsEntry]
    norm_num
    rw [matchLoopRefs]
    norm_num
    rw [matchLoopRefs]
    norm_num
  rw [h]
  norm_num

end GoEconGo
